import Mathlib

/-!
Verification of the embed-py-env provisioning tool (src/main.rs) against its
natural-language specification.  The Rust program is shallowly embedded:
pure string manipulation becomes functions on `List Char`, filesystem state
becomes an association list from paths to contents, and the effectful
workflow (`main`, `create_embedded_env`, `install_requirements`) becomes a
function from an oracle `World` (the outcomes the environment would supply)
to a trace of observable events plus a result.
-/

deriving instance DecidableEq for Except

namespace EmbedPyEnv

/-! ## Characters and strings

The Rust code works on `&str`; we embed the relevant operations on
`List Char`.  `rustTrim` models `str::trim` (ASCII whitespace suffices for
every input these claims concern), `splitDots` models `str::split('.')`
(which yields `[""]` on the empty string and keeps empty components), and
`parseU16` models `<u16 as FromStr>::from_str` (an optional leading plus
sign, then one or more ASCII digits, value below 2^16; `None` stands for
every `ParseIntError`). -/

/-- Drops a single leading plus sign, as Rust integer parsing does. -/
def stripPlus : List Char → List Char
  | [] => []
  | c :: rest => if c = '+' then rest else c :: rest

/-- Models `str::trim`: removes leading and trailing whitespace. -/
def rustTrim (s : List Char) : List Char :=
  ((s.dropWhile Char.isWhitespace).reverse.dropWhile Char.isWhitespace).reverse

/-- Models `str::split('.')` collected to a `Vec`: the list of dot-separated
components, empty components kept, `[[]]` for the empty string. -/
def splitDots : List Char → List (List Char)
  | [] => [[]]
  | c :: rest =>
    if c = '.' then [] :: splitDots rest
    else
      match splitDots rest with
      | [] => [[c]]
      | g :: gs => (c :: g) :: gs

/-- Decimal value of a digit character. -/
def digitVal (c : Char) : Nat := c.toNat - 48

/-- Models `<u16 as FromStr>::from_str` (src/main.rs:187 `.parse()` calls):
an optional leading `+`, then one or more ASCII digits whose value fits in
16 bits.  `none` stands for any `ParseIntError`. -/
def parseU16 (s : List Char) : Option Nat :=
  let digits := stripPlus s
  if digits.isEmpty then none
  else if digits.all Char.isDigit then
    let n := digits.foldl (fun a c => a * 10 + digitVal c) 0
    if n < 65536 then some n else none
  else none

/-- Fuel-driven decimal printer; with fuel above `n` it yields the usual
most-significant-first decimal digits of `n`. -/
def natDigitsF : Nat → Nat → List Char
  | 0, _ => []
  | fuel + 1, n =>
    if n < 10 then [Nat.digitChar n]
    else natDigitsF fuel (n / 10) ++ [Nat.digitChar (n % 10)]

/-- Models Rust's `Display` for unsigned integers (used by the `format!`
calls at src/main.rs:115 and 196): unpadded decimal digits. -/
def natDigits (n : Nat) : List Char := natDigitsF (n + 1) n

/-- Models the version part of `format!("{0}.{1}.{2}", ...)`
(src/main.rs:196): the dotted rendering of a version triple. -/
def verFmt (x y z : Nat) : List Char :=
  natDigits x ++ '.' :: (natDigits y ++ '.' :: natDigits z)

/-- Re-formats a parsed triple as an `X.Y.Z` string. -/
def refmt (v : Nat × Nat × Nat) : List Char := verFmt v.1 v.2.1 v.2.2

/-! ## Errors

The program reports errors through `anyhow`; the constructors below name the
distinct error situations the source can produce, so that claims about which
failure happens where are statable. -/

/-- The failure modes of the embedded program. -/
inductive Err where
  /-- The `bail!("Version must be of the format: 1.2.3")` at src/main.rs:188,
  raised only when the component count differs from three. -/
  | invalidFormat
  /-- A `ParseIntError` propagated by `?` from a `.parse()` call at
  src/main.rs:187. -/
  | parseIntError
  /-- The `anyhow!("missing PATH env")` at src/main.rs:203. -/
  | missingEnvPath
  /-- The `anyhow!("Could not find any {}/libs in PATH", target)` at
  src/main.rs:213, carrying the target directory name. -/
  | notFound (target : String)
  /-- A filesystem or process-spawn error propagated by `?`. -/
  | ioError
  /-- A failed HTTP download propagated by `?` from `reqwest`. -/
  | fetchError
  /-- A failed zip extraction propagated by `?` at src/main.rs:95. -/
  | extractError
  /-- A failed library merge propagated by `?` at src/main.rs:101-109. -/
  | copyError
  /-- The `bail!("get-pip failed")` / `bail!("pip failed")` for a child
  process that exited with non-zero status, tagged by the tool. -/
  | toolFailed (tool : String)
  deriving DecidableEq

/-- Models `python_version_from_str` (src/main.rs:179-192): trim, split on
dots, require exactly three components, parse each as `u16`. -/
def python_version_from_str (s : List Char) : Except Err (Nat × Nat × Nat) :=
  match splitDots (rustTrim s) with
  | [a, b, c] =>
    match parseU16 a, parseU16 b, parseU16 c with
    | some x, some y, some z => .ok (x, y, z)
    | _, _, _ => .error .parseIntError
  | _ => .error .invalidFormat

/-- Outcome of a `Command::output()` call: the spawn itself can fail, or the
child runs and yields an exit status and captured standard output. -/
inductive CmdResult where
  | spawnFailure
  | ran (exitSuccess : Bool) (stdout : List Char)
  deriving DecidableEq

/-- Models `default_python_version` (src/main.rs:165-177): run the host
`python`, and parse whatever it printed to standard output.  The exit
status of the child is never consulted by the source. -/
def default_python_version (r : CmdResult) : Except Err (Nat × Nat × Nat) :=
  match r with
  | .spawnFailure => .error .ioError
  | .ran _ out => python_version_from_str out

/-! ## Host library locator

Filesystem paths are lists of components.  `host_python_dir` receives the
contents of the `PATH` variable (already split into entries, `none` when the
variable is absent) and an `isDir` oracle standing for `Path::is_dir`. -/

/-- A filesystem path, as its list of components. -/
abbrev FPath := List String

/-- Models `format!("Python{}{}", version.0, version.1)` (src/main.rs:202):
the unpadded concatenation of major and minor. -/
def targetPyName (v : Nat × Nat × Nat) : String :=
  "Python" ++ String.mk (natDigits v.1) ++ String.mk (natDigits v.2.1)

/-- Models the iterator chain at src/main.rs:205-212: the first `PATH` entry
whose final component equals `target` and whose `libs` subdirectory is a
directory, mapped to that `libs` subdirectory.  `Path::ends_with` with a
single-component needle compares the final component. -/
def find_libs (target : String) (isDir : FPath → Bool) : List FPath → Option FPath
  | [] => none
  | d :: rest =>
    if d.getLast? = some target ∧ isDir (d ++ ["libs"]) = true then some (d ++ ["libs"])
    else find_libs target isDir rest

/-- Models `host_python_dir` (src/main.rs:201-214). -/
def host_python_dir (v : Nat × Nat × Nat) (pathVar : Option (List FPath))
    (isDir : FPath → Bool) : Except Err FPath :=
  match pathVar with
  | none => .error .missingEnvPath
  | some dirs =>
    match find_libs (targetPyName v) isDir dirs with
    | some p => .ok p
    | none => .error (.notFound (targetPyName v))

/-- Whether a `PATH` entry qualifies at src/main.rs:207-211: its final
component is the target name and its `libs` subdirectory is a directory. -/
def okDir (v : Nat × Nat × Nat) (isDir : FPath → Bool) (d : FPath) : Prop :=
  d.getLast? = some (targetPyName v) ∧ isDir (d ++ ["libs"]) = true

instance (v : Nat × Nat × Nat) (isDir : FPath → Bool) (d : FPath) :
    Decidable (okDir v isDir d) := by
  unfold okDir; infer_instance

/-! ## The process-environment override

`to_string_lossy` renders a path with the platform's directory separator and
the `format!("{}:{}", ..)` at src/main.rs:158-162 joins the two rendered
paths with a literal colon.  The platform is a parameter, so that the
spec's "platform path-list separator" wording is statable next to what the
code does. -/

/-- The two separators a platform fixes: the directory separator used when a
path is rendered, and the separator between entries of a path-list variable
such as `PATH` (`:` on Unix, `;` on Windows). -/
structure OsPlatform where
  dirSep : Char
  pathListSep : Char
  deriving DecidableEq

/-- A Unix-like platform. -/
def unixPlatform : OsPlatform := ⟨'/', ':'⟩

/-- The Windows platform, the one the produced layout (`pip.exe`,
`Scripts`, `._pth`) is for. -/
def windowsPlatform : OsPlatform := ⟨'\\', ';'⟩

/-- Renders a path as `to_string_lossy` does: components joined by the
platform's directory separator. -/
def pathRender (pl : OsPlatform) (p : FPath) : String :=
  String.intercalate (String.mk [pl.dirSep]) p

/-- Models `dist_env_path` (src/main.rs:156-163): the rendered target
directory and its rendered `Scripts` subdirectory joined by a literal
colon. -/
def dist_env_path (pl : OsPlatform) (dist : FPath) : String :=
  pathRender pl dist ++ ":" ++ pathRender pl (dist ++ ["Scripts"])

/-- Modelled from the spec: the Process Environment Override as section 6
words it, the target directory and its `Scripts` subdirectory "joined by
the platform path-list separator".  Stated only to be compared with
`dist_env_path`, the code's construction. -/
def dist_env_path_spec (pl : OsPlatform) (dist : FPath) : String :=
  pathRender pl dist ++ String.mk [pl.pathListSep] ++ pathRender pl (dist ++ ["Scripts"])

/-! ## The import-site patcher

`str::replace(pat, rep)` replaces every non-overlapping occurrence of `pat`,
scanning left to right.  `replaceAllF` is the fuel-driven worker (structural,
so the kernel can evaluate it); `replaceAll` supplies sufficient fuel. -/

/-- Fuel-driven worker for `replaceAll`; with fuel at least the length of
the subject it performs the full left-to-right global replacement. -/
def replaceAllF (pat rep : List Char) : Nat → List Char → List Char
  | _, [] => []
  | 0, s => s
  | fuel + 1, c :: s =>
    if pat.isPrefixOf (c :: s) then rep ++ replaceAllF pat rep fuel ((c :: s).drop pat.length)
    else c :: replaceAllF pat rep fuel s

/-- Models Rust's `str::replace` (src/main.rs:117): every non-overlapping
occurrence of `pat`, found left to right, replaced by `rep`. -/
def replaceAll (pat rep s : List Char) : List Char :=
  replaceAllF pat rep s.length s

/-- Modelled from the spec: replacement of only the *first* occurrence, the
behaviour the spec ascribes to the Import-Site Patcher.  Stated only to be
compared with `replaceAll`, the code's global replacement. -/
def replaceFirst (pat rep : List Char) : List Char → List Char
  | [] => []
  | c :: s =>
    if pat.isPrefixOf (c :: s) then rep ++ (c :: s).drop pat.length
    else c :: replaceFirst pat rep s

/-- Whether `pat` occurs as a contiguous substring. -/
def occursB (pat : List Char) : List Char → Bool
  | [] => pat.isEmpty
  | c :: s => pat.isPrefixOf (c :: s) || occursB pat s

/-- The commented-out directive the patcher looks for. -/
def importSitePat : List Char :=
  ['#', 'i', 'm', 'p', 'o', 'r', 't', ' ', 's', 'i', 't', 'e']

/-- The active directive written in its place. -/
def importSiteRep : List Char :=
  ['i', 'm', 'p', 'o', 'r', 't', ' ', 's', 'i', 't', 'e']

/-- Models `contents.replace("#import site", "import site")`
(src/main.rs:117). -/
def patchContents (s : List Char) : List Char :=
  replaceAll importSitePat importSiteRep s

/-- Joins lines with newline characters (the inverse of splitting a text
into its lines). -/
def joinLines : List (List Char) → List Char
  | [] => []
  | [l] => l
  | l :: ls => l ++ '\n' :: joinLines ls

/-! ## A small filesystem model

Files only: an association list from paths to contents, `List.lookup`
finding the first (hence current) binding, `fsWrite` shadowing any earlier
binding.  Directories are implicit (creating an empty directory does not
change this state). -/

/-- The filesystem: current file contents by path. -/
abbrev FS := List (FPath × List Char)

/-- The contents of the file at `p`, when one exists. -/
def fsLookup (fs : FS) (p : FPath) : Option (List Char) := List.lookup p fs

/-- Writes (creates or overwrites) the file at `p`. -/
def fsWrite (fs : FS) (p : FPath) (c : List Char) : FS := (p, c) :: fs

/-- Models `format!("python{}{}._pth", ...)` (src/main.rs:115). -/
def pthName (v : Nat × Nat × Nat) : String :=
  "python" ++ String.mk (natDigits v.1) ++ String.mk (natDigits v.2.1) ++ "._pth"

/-- The configuration file's path inside the target directory. -/
def pthPath (dist : FPath) (v : Nat × Nat × Nat) : FPath := dist ++ [pthName v]

/-- Models the patch block at src/main.rs:112-119: read the `._pth` file
(a missing file makes `fs::read_to_string` fail), globally replace the
commented directive, write the result back in place. -/
def patch_step (fs : FS) (dist : FPath) (v : Nat × Nat × Nat) : Except Err FS :=
  match fsLookup fs (pthPath dist v) with
  | none => .error .ioError
  | some contents => .ok (fsWrite fs (pthPath dist v) (patchContents contents))

/-! ## The library merger

One immediate child of the host `libs` directory: a file with contents, or a
subdirectory (whose own files `fs_extra` does not read at depth 1). -/

/-- An immediate child of the source directory. -/
inductive HostEntry where
  | file (content : List Char)
  | subdir (files : List (String × List Char))

/-- Models the `fs_extra::dir::copy` call at src/main.rs:101-109 with
`CopyOptions { skip_exist: true, depth: 1, ..Default::default() }`.  With the
default `copy_inside: false` the source directory itself (named `srcName`,
here always `libs`) lands inside `destDir`; depth 1 reads only the source's
immediate children: each immediate file is copied unless the destination
file already exists (`skip_exist` skips it silently), each immediate
subdirectory is created but its contents are not read. -/
def copy_libs (srcName : String) (src : List (String × HostEntry))
    (destDir : FPath) (fs : FS) : FS :=
  match src with
  | [] => fs
  | e :: rest =>
    copy_libs srcName rest destDir
      (match e.2 with
        | .file c =>
          match fsLookup fs (destDir ++ [srcName, e.1]) with
          | some _ => fs
          | none => fsWrite fs (destDir ++ [srcName, e.1]) c
        | .subdir _ => fs)

/-! ## The orchestrated workflow as a trace of events

`World` fixes, ahead of the run, the answer the environment would give to
each effectful step; `mainRun` replays `main` (src/main.rs:31-52) against it
and records the observable events in order. -/

/-- The observable effects of a run. -/
inductive Event where
  /-- An HTTP GET of the given URL. -/
  | networkGet (url : String)
  /-- Extraction of the downloaded archive into the target directory. -/
  | extract
  /-- The `fs_extra::dir::copy` merge of host libraries. -/
  | copyLibs
  /-- Reading the `._pth` configuration file. -/
  | readPth
  /-- Writing the patched `._pth` configuration file. -/
  | writePth
  /-- Spawning a child process, with the `PATH` value passed to it
  (`none` when the child simply inherits the parent environment). -/
  | run (prog : String) (envPath : Option String)
  /-- Mutation of the parent process's own environment.  No step of the
  source performs one; the constructor exists so that its absence is a
  statement about the trace rather than about the type. -/
  | setParentEnv (name value : String)
  deriving DecidableEq

/-- The command-line inputs (src/main.rs:11-24). -/
structure Opt where
  py_version : Option (List Char)
  output_dir : FPath
  requirements : Option FPath

/-- The environment's answers to the run's effectful questions. -/
structure World where
  /-- Outcome of the `python -c ...` version probe (src/main.rs:166-172). -/
  defaultPython : CmdResult
  /-- Whether `output_dir/Scripts/pip.exe` is a file (src/main.rs:40). -/
  pipIsFile : Bool
  /-- The split `PATH` variable, `none` when absent (src/main.rs:203). -/
  pathVar : Option (List FPath)
  /-- Which paths are directories (src/main.rs:210). -/
  isDir : FPath → Bool
  /-- Whether `fs::create_dir_all` succeeds (src/main.rs:85). -/
  createDirOk : Bool
  /-- Whether the embeddable-zip GET succeeds (src/main.rs:90-93). -/
  zipFetchOk : Bool
  /-- Whether the zip extraction succeeds (src/main.rs:95). -/
  extractOk : Bool
  /-- Whether the library merge succeeds (src/main.rs:101-109). -/
  copyOk : Bool
  /-- Contents of the `._pth` file, `none` when absent (src/main.rs:116). -/
  pthContents : Option (List Char)
  /-- Whether the get-pip GET and its write to disk succeed
  (src/main.rs:124-127). -/
  getPipFetchOk : Bool
  /-- Outcome of running the embedded python on get-pip.py
  (src/main.rs:136-141). -/
  getPipRun : CmdResult
  /-- Outcome of running pip on the requirements file (src/main.rs:63-69). -/
  pipRun : CmdResult

/-- The fixed get-pip bootstrap URL (src/main.rs:26). -/
def getPipUrl : String := "https://bootstrap.pypa.io/get-pip.py"

/-- Models `python_embed_zip_url` (src/main.rs:194-199).  `Url::parse`
cannot fail on this shape, so the URL is the rendered string. -/
def python_embed_zip_url (v : Nat × Nat × Nat) : String :=
  "https://www.python.org/ftp/python/" ++ String.mk (refmt v) ++ "/python-"
    ++ String.mk (refmt v) ++ "-embed-amd64.zip"

/-- Models `install_requirements` (src/main.rs:54-79): run pip with the
process-environment override; non-zero exit is `bail!("pip failed")`. -/
def install_requirements (pl : OsPlatform) (w : World) (pipPath dist : FPath) :
    List Event × Except Err Unit :=
  ([Event.run (pathRender pl pipPath) (some (dist_env_path pl dist))],
    match w.pipRun with
    | .spawnFailure => .error .ioError
    | .ran ok _ => if ok then .ok () else .error (.toolFailed "pip"))

/-- The full event sequence of a successful assembly, in source order
(src/main.rs:81-154); the failing runs emit exactly a prefix of it. -/
def assemblyTrace (pl : OsPlatform) (v : Nat × Nat × Nat) (dist : FPath) : List Event :=
  [Event.networkGet (python_embed_zip_url v), Event.extract, Event.copyLibs,
    Event.readPth, Event.writePth, Event.networkGet getPipUrl,
    Event.run (pathRender pl (dist ++ ["python"])) (some (dist_env_path pl dist))]

/-- Models `create_embedded_env` (src/main.rs:81-154): locate the host
libs directory, create the target, download and extract the embeddable
archive, merge libraries, patch the `._pth` file, download get-pip and run
the embedded python on it with the environment override.  Each failing
branch has emitted exactly the events up to its failing step. -/
def create_embedded_env (pl : OsPlatform) (w : World) (v : Nat × Nat × Nat)
    (dist : FPath) : List Event × Except Err Unit :=
  match host_python_dir v w.pathVar w.isDir with
  | .error e => ([], .error e)
  | .ok _ =>
    if w.createDirOk = false then ([], .error .ioError)
    else if w.zipFetchOk = false then
      ((assemblyTrace pl v dist).take 1, .error .fetchError)
    else if w.extractOk = false then
      ((assemblyTrace pl v dist).take 2, .error .extractError)
    else if w.copyOk = false then
      ((assemblyTrace pl v dist).take 3, .error .copyError)
    else
      match w.pthContents with
      | none => ((assemblyTrace pl v dist).take 4, .error .ioError)
      | some _ =>
        if w.getPipFetchOk = false then
          ((assemblyTrace pl v dist).take 6, .error .fetchError)
        else
          match w.getPipRun with
          | .spawnFailure => (assemblyTrace pl v dist, .error .ioError)
          | .ran ok _ =>
            if ok then (assemblyTrace pl v dist, .ok ())
            else (assemblyTrace pl v dist, .error (.toolFailed "get-pip"))

/-- Version resolution as `main` performs it (src/main.rs:33-36). -/
def versionResolve (opt : Opt) (w : World) : Except Err (Nat × Nat × Nat) :=
  match opt.py_version with
  | some s => python_version_from_str s
  | none => default_python_version w.defaultPython

/-- The events of version resolution: the implicit path spawns the host
interpreter, with no environment override (src/main.rs:166-172). -/
def probeTrace (opt : Opt) : List Event :=
  match opt.py_version with
  | some _ => []
  | none => [Event.run "python" none]

/-- The assembly phase as `main` guards it (src/main.rs:40-44): skipped
outright when the marker `Scripts/pip.exe` is already a file. -/
def assemblyStep (pl : OsPlatform) (opt : Opt) (w : World) (v : Nat × Nat × Nat) :
    List Event × Except Err Unit :=
  if w.pipIsFile then ([], .ok ()) else create_embedded_env pl w v opt.output_dir

/-- Models `main` (src/main.rs:31-52): resolve the version, run (or skip)
assembly, then install requirements exactly when a manifest was supplied. -/
def mainRun (pl : OsPlatform) (opt : Opt) (w : World) : List Event × Except Err Unit :=
  match versionResolve opt w with
  | .error e => (probeTrace opt, .error e)
  | .ok v =>
    match (assemblyStep pl opt w v).2 with
    | .error e => (probeTrace opt ++ (assemblyStep pl opt w v).1, .error e)
    | .ok _ =>
      match opt.requirements with
      | none => (probeTrace opt ++ (assemblyStep pl opt w v).1, .ok ())
      | some _ =>
        (probeTrace opt ++ (assemblyStep pl opt w v).1 ++
            (install_requirements pl w (opt.output_dir ++ ["Scripts", "pip.exe"])
              opt.output_dir).1,
          (install_requirements pl w (opt.output_dir ++ ["Scripts", "pip.exe"])
            opt.output_dir).2)

/-! ## Lemmas on decimal digits and version parsing -/

lemma digitChar_spec : ∀ d, d < 10 →
    (Nat.digitChar d).isDigit = true ∧ digitVal (Nat.digitChar d) = d := by decide

lemma isDigit_facts {c : Char} (h : c.isDigit = true) :
    c ≠ '.' ∧ c.isWhitespace = false ∧ c ≠ '+' ∧ c ≠ '\n' := by
  refine ⟨?_, ?_, ?_, ?_⟩
  · intro hc; subst hc; exact absurd h (by decide)
  · by_contra hw
    rw [Bool.not_eq_false] at hw
    simp only [Char.isWhitespace, Bool.or_eq_true, decide_eq_true_eq] at hw
    rcases hw with ((h1 | h1) | h1) | h1 <;> subst h1 <;> exact absurd h (by decide)
  · intro hc; subst hc; exact absurd h (by decide)
  · intro hc; subst hc; exact absurd h (by decide)

lemma natDigitsF_spec : ∀ f n, n < f →
    natDigitsF f n ≠ [] ∧ (∀ c ∈ natDigitsF f n, c.isDigit = true) ∧
      (natDigitsF f n).foldl (fun a c => a * 10 + digitVal c) 0 = n := by
  intro f
  induction f with
  | zero => intro n hn; exact absurd hn (Nat.not_lt_zero n)
  | succ f ih =>
    intro n hn
    by_cases h10 : n < 10
    · refine ⟨by simp [natDigitsF, h10], ?_, ?_⟩
      · intro c hc
        simp only [natDigitsF, if_pos h10, List.mem_singleton] at hc
        subst hc; exact (digitChar_spec n h10).1
      · simp [natDigitsF, h10, (digitChar_spec n h10).2]
    · have hdivlt : n / 10 < n := Nat.div_lt_self (by omega) (by omega)
      have hdivf : n / 10 < f := lt_of_lt_of_le hdivlt (Nat.lt_succ_iff.mp hn)
      obtain ⟨hne, hdig, hval⟩ := ih (n / 10) hdivf
      have hmod : n % 10 < 10 := Nat.mod_lt n (by omega)
      refine ⟨by simp [natDigitsF, h10], ?_, ?_⟩
      · intro c hc
        simp only [natDigitsF, if_neg h10, List.mem_append, List.mem_singleton] at hc
        rcases hc with hc | hc
        · exact hdig c hc
        · subst hc; exact (digitChar_spec _ hmod).1
      · simp only [natDigitsF, if_neg h10, List.foldl_append, hval, List.foldl_cons,
          List.foldl_nil, (digitChar_spec _ hmod).2]
        omega

lemma natDigits_spec (n : Nat) :
    natDigits n ≠ [] ∧ (∀ c ∈ natDigits n, c.isDigit = true) ∧
      (natDigits n).foldl (fun a c => a * 10 + digitVal c) 0 = n :=
  natDigitsF_spec (n + 1) n (Nat.lt_succ_self n)

lemma parseU16_natDigits (n : Nat) :
    parseU16 (natDigits n) = if n < 65536 then some n else none := by
  obtain ⟨hne, hdig, hval⟩ := natDigits_spec n
  have hsp : stripPlus (natDigits n) = natDigits n := by
    cases hd : natDigits n with
    | nil => rfl
    | cons c cs =>
      have hc : c.isDigit = true := hdig c (by rw [hd]; exact List.mem_cons_self c cs)
      simp [stripPlus, (isDigit_facts hc).2.2.1]
  have hie : (natDigits n).isEmpty = false := by
    cases hd : natDigits n with
    | nil => exact absurd hd hne
    | cons c cs => rfl
  have hall : (natDigits n).all Char.isDigit = true := by
    rw [List.all_eq_true]; exact hdig
  simp only [parseU16, hsp, hie, Bool.false_eq_true, if_false, hall, if_true, hval]

lemma mem_natDigits_not_dot {c : Char} {n : Nat} (h : c ∈ natDigits n) : c ≠ '.' :=
  (isDigit_facts ((natDigits_spec n).2.1 c h)).1

lemma mem_verFmt_not_ws {x y z : Nat} {c : Char} (h : c ∈ verFmt x y z) :
    c.isWhitespace = false := by
  simp only [verFmt, List.mem_append, List.mem_cons] at h
  rcases h with h | h | h | h | h
  · exact (isDigit_facts ((natDigits_spec x).2.1 c h)).2.1
  · subst h; decide
  · exact (isDigit_facts ((natDigits_spec y).2.1 c h)).2.1
  · subst h; decide
  · exact (isDigit_facts ((natDigits_spec z).2.1 c h)).2.1

lemma dropWhile_eq_self_of {p : Char → Bool} {l : List Char}
    (h : ∀ c ∈ l, p c = false) : l.dropWhile p = l := by
  cases l with
  | nil => rfl
  | cons c cs => simp [List.dropWhile_cons, h c (List.mem_cons_self c cs)]

lemma rustTrim_eq_self {s : List Char} (h : ∀ c ∈ s, c.isWhitespace = false) :
    rustTrim s = s := by
  unfold rustTrim
  rw [dropWhile_eq_self_of h]
  rw [dropWhile_eq_self_of (fun c hc => h c (List.mem_reverse.mp hc))]
  exact List.reverse_reverse s

lemma splitDots_no_dot {a : List Char} (h : ∀ c ∈ a, c ≠ '.') :
    splitDots a = [a] := by
  induction a with
  | nil => rfl
  | cons c rest ih =>
    have hcd : c ≠ '.' := h c (List.mem_cons_self c rest)
    have := ih (fun x hx => h x (List.mem_cons_of_mem c hx))
    simp [splitDots, hcd, this]

lemma splitDots_append {a : List Char} (r : List Char) (h : ∀ c ∈ a, c ≠ '.') :
    splitDots (a ++ '.' :: r) = a :: splitDots r := by
  induction a with
  | nil => simp [splitDots]
  | cons c rest ih =>
    have hcd : c ≠ '.' := h c (List.mem_cons_self c rest)
    have := ih (fun x hx => h x (List.mem_cons_of_mem c hx))
    simp [splitDots, hcd, this]

lemma splitDots_verFmt (x y z : Nat) :
    splitDots (verFmt x y z) = [natDigits x, natDigits y, natDigits z] := by
  unfold verFmt
  rw [splitDots_append _ (fun c hc => mem_natDigits_not_dot hc),
    splitDots_append _ (fun c hc => mem_natDigits_not_dot hc),
    splitDots_no_dot (fun c hc => mem_natDigits_not_dot hc)]

lemma parse_verFmt (x y z : Nat) (hx : x < 65536) (hy : y < 65536) (hz : z < 65536) :
    python_version_from_str (verFmt x y z) = .ok (x, y, z) := by
  have h1 : parseU16 (natDigits x) = some x := by rw [parseU16_natDigits, if_pos hx]
  have h2 : parseU16 (natDigits y) = some y := by rw [parseU16_natDigits, if_pos hy]
  have h3 : parseU16 (natDigits z) = some z := by rw [parseU16_natDigits, if_pos hz]
  simp [python_version_from_str, rustTrim_eq_self (fun c hc => mem_verFmt_not_ws hc),
    splitDots_verFmt, h1, h2, h3]

lemma parseU16_natDigits_none {n : Nat} (h : 65536 ≤ n) : parseU16 (natDigits n) = none := by
  rw [parseU16_natDigits, if_neg (by omega)]

/-! ## Claim C4: parse/format round trip -/

/-- Claim C4 (amended): for components within the 16-bit range that the
`u16` parse imposes, parsing an `X.Y.Z` rendering and re-formatting the
resulting triple yields the original string. -/
theorem version_roundtrip_u16 (x y z : Nat)
    (hx : x < 65536) (hy : y < 65536) (hz : z < 65536) :
    Except.map refmt (python_version_from_str (verFmt x y z)) = .ok (verFmt x y z) := by
  rw [parse_verFmt x y z hx hy hz]; rfl

/-- Witness for `version_roundtrip_u16` at the concrete version 3.9.7. -/
theorem version_roundtrip_u16_witness :
    Except.map refmt (python_version_from_str (verFmt 3 9 7)) = .ok (verFmt 3 9 7) :=
  version_roundtrip_u16 3 9 7 (by decide) (by decide) (by decide)

/-- Counterexample to claim C4 as stated: with the unbounded non-negative
component 65536 the round trip does not return the input, because parsing
fails with the propagated integer-parse error. -/
theorem version_roundtrip_unbounded_cex :
    Except.map refmt (python_version_from_str (verFmt 65536 0 0)) = .error .parseIntError ∧
      Except.map refmt (python_version_from_str (verFmt 65536 0 0)) ≠
        .ok (verFmt 65536 0 0) := by
  constructor
  · decide
  · decide

/-! ## Claim C10: components are 16-bit bounded -/

/-- Claim C10: components are parsed as 16-bit unsigned integers, so any
well-formed decimal component above 65535 makes parsing fail (with the
integer-parse error) instead of producing a triple. -/
theorem version_component_u16_bound (x y z : Nat)
    (h : 65536 ≤ x ∨ 65536 ≤ y ∨ 65536 ≤ z) :
    python_version_from_str (verFmt x y z) = .error .parseIntError := by
  have ht : rustTrim (verFmt x y z) = verFmt x y z :=
    rustTrim_eq_self (fun c hc => mem_verFmt_not_ws hc)
  have hnone : parseU16 (natDigits x) = none ∨ parseU16 (natDigits y) = none ∨
      parseU16 (natDigits z) = none := by
    rcases h with h | h | h
    · exact Or.inl (parseU16_natDigits_none h)
    · exact Or.inr (Or.inl (parseU16_natDigits_none h))
    · exact Or.inr (Or.inr (parseU16_natDigits_none h))
  rcases e1 : parseU16 (natDigits x) with _ | v1 <;>
    rcases e2 : parseU16 (natDigits y) with _ | v2 <;>
      rcases e3 : parseU16 (natDigits z) with _ | v3 <;>
        simp_all [python_version_from_str, ht, splitDots_verFmt]

/-- Witness for `version_component_u16_bound` at the concrete overflowing
component 65536. -/
theorem version_component_u16_bound_witness :
    python_version_from_str (verFmt 65536 0 0) = .error .parseIntError :=
  version_component_u16_bound 65536 0 0 (by decide)

/-! ## Claim C5: rejection of malformed version strings -/

/-- Claim C5 (amended): a trimmed input with a component count other than
three fails with the error naming the expected `1.2.3` shape, while an
input with exactly three components of which one does not parse as a `u16`
fails with the propagated integer-parse error instead.  Parsing is a pure
function: no filesystem or network action is modelled because the source
performs none. -/
theorem version_error_classification (s : List Char) :
    ((splitDots (rustTrim s)).length ≠ 3 →
        python_version_from_str s = .error .invalidFormat) ∧
      (∀ a b c, splitDots (rustTrim s) = [a, b, c] →
        (parseU16 a = none ∨ parseU16 b = none ∨ parseU16 c = none) →
        python_version_from_str s = .error .parseIntError) := by
  constructor
  · intro hlen
    unfold python_version_from_str
    rcases hl : splitDots (rustTrim s) with _ | ⟨a, _ | ⟨b, _ | ⟨c, _ | ⟨d, t⟩⟩⟩⟩ <;>
      first
        | rfl
        | (exact absurd (by rw [hl]; rfl) hlen)
  · intro a b c heq hdisj
    unfold python_version_from_str
    rw [heq]
    rcases e1 : parseU16 a with _ | v1 <;>
      rcases e2 : parseU16 b with _ | v2 <;>
        rcases e3 : parseU16 c with _ | v3 <;>
          simp_all

/-- Witness for `version_error_classification`: the two-component string
`3.9` falls in the wrong-count branch. -/
theorem version_error_classification_witness :
    (splitDots (rustTrim ['3', '.', '9'])).length ≠ 3 ∧
      python_version_from_str ['3', '.', '9'] = .error .invalidFormat :=
  ⟨by decide, (version_error_classification ['3', '.', '9']).1 (by decide)⟩

/-- Counterexample to claim C5 as stated: the three-component string
`a.b.c` from the claim's own examples fails with the propagated
integer-parse error, not with the `InvalidFormat` error that names the
expected `X.Y.Z` shape (that error is raised only for a wrong component
count). -/
theorem version_error_classification_cex :
    python_version_from_str ['a', '.', 'b', '.', 'c'] = .error .parseIntError ∧
      Err.parseIntError ≠ Err.invalidFormat := by
  constructor
  · decide
  · decide

/-! ## Claim C6: the implicit resolver and the child's exit status -/

/-- Claim C6 (amended): on the implicit path the version resolver never
consults the child's exit status — the captured standard output is parsed
whatever the status was — and the external-tool failure arises only when
the interpreter cannot be spawned at all. -/
theorem default_version_ignores_exit_status :
    (∀ b₁ b₂ out, default_python_version (.ran b₁ out) =
        default_python_version (.ran b₂ out)) ∧
      (∀ b out, default_python_version (.ran b out) = python_version_from_str out) ∧
      default_python_version .spawnFailure = .error .ioError :=
  ⟨fun _ _ _ => rfl, fun _ _ => rfl, rfl⟩

/-- Witness for `default_version_ignores_exit_status` at a concrete run. -/
theorem default_version_ignores_exit_status_witness :
    default_python_version (.ran false ['3', '.', '9', '.', '7']) =
      default_python_version (.ran true ['3', '.', '9', '.', '7']) :=
  default_version_ignores_exit_status.1 false true ['3', '.', '9', '.', '7']

/-- Counterexample to claim C6 as stated: when the interpreter exits with a
non-zero status but printed `3.9.7`, the resolver succeeds with the parsed
triple instead of failing with an external-tool error. -/
theorem default_version_nonzero_exit_cex :
    default_python_version (.ran false ['3', '.', '9', '.', '7']) = .ok (3, 9, 7) := by
  decide

/-! ## Lemmas on substring search and global replacement -/

lemma prefixOf_length_le : ∀ {pat l : List Char}, pat.isPrefixOf l = true →
    pat.length ≤ l.length := by
  intro pat
  induction pat with
  | nil => intro l _; simp
  | cons p ps ih =>
    intro l h
    cases l with
    | nil => simp [List.isPrefixOf] at h
    | cons b bs =>
      simp only [List.isPrefixOf, Bool.and_eq_true] at h
      simpa using ih h.2

lemma prefixOf_append {pat l : List Char} (m : List Char)
    (h : pat.isPrefixOf l = true) : pat.isPrefixOf (l ++ m) = true := by
  induction pat generalizing l with
  | nil => simp [List.isPrefixOf]
  | cons p ps ih =>
    cases l with
    | nil => simp [List.isPrefixOf] at h
    | cons b bs =>
      simp only [List.cons_append, List.isPrefixOf, Bool.and_eq_true] at h ⊢
      exact ⟨h.1, ih h.2⟩

lemma prefixOf_of_append {pat l m : List Char} (h : pat.isPrefixOf (l ++ m) = true)
    (hle : pat.length ≤ l.length) : pat.isPrefixOf l = true := by
  induction pat generalizing l with
  | nil => simp [List.isPrefixOf]
  | cons p ps ih =>
    cases l with
    | nil => simp at hle
    | cons b bs =>
      simp only [List.cons_append, List.isPrefixOf, Bool.and_eq_true] at h ⊢
      exact ⟨h.1, ih h.2 (by simpa using hle)⟩

lemma prefixOf_boundary : ∀ (l : List Char) {pat m : List Char} {ch : Char},
    pat.isPrefixOf (l ++ ch :: m) = true → l.length < pat.length → ch ∈ pat := by
  intro l
  induction l with
  | nil =>
    intro pat m ch h hlen
    cases pat with
    | nil => simp at hlen
    | cons p ps =>
      simp only [List.nil_append, List.isPrefixOf, Bool.and_eq_true, beq_iff_eq] at h
      rw [h.1]
      exact List.mem_cons_self ch ps
  | cons a l' ih =>
    intro pat m ch h hlen
    cases pat with
    | nil => simp at hlen
    | cons p ps =>
      simp only [List.cons_append, List.isPrefixOf, Bool.and_eq_true] at h
      exact List.mem_cons_of_mem p (ih h.2 (by simpa using hlen))

lemma pat_length_pos {pat : List Char} (hp : pat ≠ []) : 1 ≤ pat.length := by
  cases pat with
  | nil => exact absurd rfl hp
  | cons p ps => simp

lemma drop_append_le {l : List Char} (m : List Char) :
    ∀ n, n ≤ l.length → (l ++ m).drop n = l.drop n ++ m := by
  induction l with
  | nil =>
    intro n hn
    have : n = 0 := Nat.le_zero.mp hn
    subst this; rfl
  | cons c l' ih =>
    intro n hn
    cases n with
    | zero => rfl
    | succ k => simpa using ih k (by simpa using hn)

lemma replaceAllF_irrel {pat rep : List Char} (hp : pat ≠ []) :
    ∀ n (s : List Char), s.length = n → ∀ f₁ f₂, n ≤ f₁ → n ≤ f₂ →
      replaceAllF pat rep f₁ s = replaceAllF pat rep f₂ s := by
  intro n
  induction n using Nat.strong_induction_on with
  | _ n ih =>
    intro s hn f₁ f₂ h1 h2
    cases s with
    | nil => cases f₁ <;> cases f₂ <;> rfl
    | cons c s' =>
      subst hn
      simp only [List.length_cons] at ih h1 h2
      cases f₁ with
      | zero => simp at h1
      | succ g₁ =>
        cases f₂ with
        | zero => simp at h2
        | succ g₂ =>
          have hplen : 1 ≤ pat.length := pat_length_pos hp
          by_cases hpre : pat.isPrefixOf (c :: s') = true
          · simp only [replaceAllF, if_pos hpre]
            congr 1
            have hdl : ((c :: s').drop pat.length).length = s'.length + 1 - pat.length := by
              simp [List.length_drop]
            exact ih (s'.length + 1 - pat.length) (by omega)
              _ hdl g₁ g₂ (by omega) (by omega)
          · simp only [replaceAllF, if_neg hpre]
            congr 1
            exact ih s'.length (by omega) s' rfl g₁ g₂ (by omega) (by omega)

lemma replaceAll_nil {pat rep : List Char} : replaceAll pat rep [] = [] := rfl

lemma replaceAll_cons {pat rep : List Char} (hp : pat ≠ []) (c : Char) (s : List Char) :
    replaceAll pat rep (c :: s) =
      if pat.isPrefixOf (c :: s) then
        rep ++ replaceAll pat rep ((c :: s).drop pat.length)
      else c :: replaceAll pat rep s := by
  have hplen : 1 ≤ pat.length := pat_length_pos hp
  by_cases hpre : pat.isPrefixOf (c :: s) = true
  · rw [if_pos hpre]
    show replaceAllF pat rep (c :: s).length (c :: s) = _
    simp only [List.length_cons, replaceAllF, if_pos hpre]
    congr 1
    have hdl : ((c :: s).drop pat.length).length = s.length + 1 - pat.length := by
      simp [List.length_drop]
    exact replaceAllF_irrel hp ((c :: s).drop pat.length).length _ rfl s.length _
      (by omega) (by omega)
  · rw [if_neg hpre]
    show replaceAllF pat rep (c :: s).length (c :: s) = _
    simp only [List.length_cons, replaceAllF, if_neg hpre]
    rfl

lemma replaceAll_cons_nomatch {pat rep : List Char} (hp : pat ≠ []) {c : Char}
    {s : List Char} (hpre : pat.isPrefixOf (c :: s) = false) :
    replaceAll pat rep (c :: s) = c :: replaceAll pat rep s := by
  rw [replaceAll_cons hp, if_neg (by simp [hpre])]

lemma replaceAll_boundary_head {pat rep : List Char} (hp : pat ≠ [])
    {ch : Char} (hch : ch ∉ pat) (rest : List Char) :
    replaceAll pat rep (ch :: rest) = ch :: replaceAll pat rep rest := by
  apply replaceAll_cons_nomatch hp
  by_contra hx
  rw [Bool.not_eq_false] at hx
  exact hch (prefixOf_boundary [] (by simpa using hx) (pat_length_pos hp))

lemma replaceAll_append_boundary {pat rep : List Char} {ch : Char}
    (hp : pat ≠ []) (hch : ch ∉ pat) :
    ∀ n (l rest : List Char), l.length ≤ n →
      replaceAll pat rep (l ++ ch :: rest) =
        replaceAll pat rep l ++ ch :: replaceAll pat rep rest := by
  intro n
  induction n with
  | zero =>
    intro l rest hl
    have : l = [] := List.length_eq_zero.mp (Nat.le_zero.mp hl)
    subst this
    simpa using replaceAll_boundary_head hp hch rest
  | succ n ih =>
    intro l rest hl
    cases l with
    | nil => simpa using replaceAll_boundary_head hp hch rest
    | cons c l' =>
      have hplen : 1 ≤ pat.length := pat_length_pos hp
      rw [List.cons_append]
      by_cases hpre : pat.isPrefixOf (c :: l') = true
      · have hlen : pat.length ≤ (c :: l').length := prefixOf_length_le hpre
        have hprefull : pat.isPrefixOf (c :: (l' ++ ch :: rest)) = true := by
          have := prefixOf_append (ch :: rest) hpre
          simpa using this
        rw [replaceAll_cons hp, if_pos hprefull, replaceAll_cons hp, if_pos hpre]
        have hdrop : (c :: (l' ++ ch :: rest)).drop pat.length =
            (c :: l').drop pat.length ++ ch :: rest := by
          have := drop_append_le (l := c :: l') (ch :: rest) pat.length hlen
          simpa using this
        rw [hdrop, ih ((c :: l').drop pat.length) rest
            (by simp only [List.length_drop, List.length_cons]
                simp only [List.length_cons] at hl
                omega),
          List.append_assoc]
      · have hprefull : pat.isPrefixOf (c :: (l' ++ ch :: rest)) = false := by
          by_contra hx
          rw [Bool.not_eq_false] at hx
          by_cases hcase : pat.length ≤ (c :: l').length
          · exact hpre (prefixOf_of_append (by simpa using hx) hcase)
          · exact hch (prefixOf_boundary (c :: l') (by simpa using hx) (by omega))
        rw [replaceAll_cons_nomatch hp hprefull,
          replaceAll_cons_nomatch hp (Bool.eq_false_iff.mpr hpre),
          ih l' rest (by simpa using hl), List.cons_append]

lemma occursB_false_id {pat rep : List Char} :
    ∀ s, occursB pat s = false → replaceAll pat rep s = s := by
  intro s
  induction s with
  | nil => intro _; rfl
  | cons c s' ih =>
    intro h
    simp only [occursB, Bool.or_eq_false_iff] at h
    have hp : pat ≠ [] := by
      intro he; subst he; simp [List.isPrefixOf] at h
    rw [replaceAll_cons_nomatch hp h.1, ih h.2]

lemma replaceAll_joinLines {pat rep : List Char} (hp : pat ≠ []) (hn : '\n' ∉ pat) :
    ∀ ls : List (List Char),
      replaceAll pat rep (joinLines ls) = joinLines (ls.map (replaceAll pat rep)) := by
  intro ls
  induction ls with
  | nil => rfl
  | cons l ls' ih =>
    cases ls' with
    | nil => rfl
    | cons l2 ls'' =>
      show replaceAll pat rep (l ++ '\n' :: joinLines (l2 :: ls'')) = _
      rw [replaceAll_append_boundary hp hn l.length l _ le_rfl, ih]
      rfl

/-! ## Claim C2: what the patcher rewrites -/

/-- Claim C2 (amended): the patcher's `str::replace` acts line by line —
the patched text is the line-wise global replacement of `#import site` by
`import site` — and every line in which the commented directive does not
occur is unchanged byte for byte.  Every occurrence is rewritten, not only
the first. -/
theorem patch_line_distribution (ls : List (List Char)) :
    patchContents (joinLines ls) =
        joinLines (ls.map (replaceAll importSitePat importSiteRep)) ∧
      ∀ l ∈ ls, occursB importSitePat l = false →
        replaceAll importSitePat importSiteRep l = l := by
  constructor
  · exact replaceAll_joinLines (by decide) (by decide) ls
  · intro l _ h
    exact occursB_false_id l h

/-- A demonstration configuration text with two commented directives. -/
def twoDirectives : List Char :=
  joinLines [['a'], importSitePat, ['b'], importSitePat]

/-- Witness for `patch_line_distribution` on the concrete two-directive
text. -/
theorem patch_line_distribution_witness :
    patchContents (joinLines [['a'], importSitePat, ['b'], importSitePat]) =
      joinLines ([['a'], importSitePat, ['b'], importSitePat].map
        (replaceAll importSitePat importSiteRep)) :=
  (patch_line_distribution [['a'], importSitePat, ['b'], importSitePat]).1

/-- Counterexample to claim C2 as stated: on a text with two `#import site`
lines the code rewrites both (global replacement), which differs from
replacing only the first occurrence and leaving every other line unchanged
byte for byte. -/
theorem patch_first_occurrence_cex :
    patchContents twoDirectives ≠ replaceFirst importSitePat importSiteRep twoDirectives ∧
      patchContents twoDirectives = joinLines [['a'], importSiteRep, ['b'], importSiteRep] := by
  constructor
  · decide
  · decide

/-! ## Claim C3: when the patch step fails -/

/-- Claim C3 (amended): the patch step fails (with the propagated read
error) when the configuration file is absent, but when the file exists
without the commented directive it silently succeeds, writing the contents
back unchanged — the missing-directive case is not an error. -/
theorem patch_step_classification (fs : FS) (dist : FPath) (v : Nat × Nat × Nat) :
    (fsLookup fs (pthPath dist v) = none → patch_step fs dist v = .error .ioError) ∧
      (∀ c, fsLookup fs (pthPath dist v) = some c → occursB importSitePat c = false →
        patch_step fs dist v = .ok (fsWrite fs (pthPath dist v) c) ∧
          fsLookup (fsWrite fs (pthPath dist v) c) (pthPath dist v) = some c) := by
  constructor
  · intro h
    simp [patch_step, h]
  · intro c hc hocc
    refine ⟨?_, ?_⟩
    · simp [patch_step, hc, patchContents, occursB_false_id c hocc]
    · simp [fsLookup, fsWrite, List.lookup]

/-- A `._pth` text whose directive is already active (no `#import site`). -/
def activeContents : List Char :=
  joinLines [['p', 'y', '3', '9'], ['.'], importSiteRep]

/-- A filesystem holding only that already-active configuration file. -/
def pthDemoFs : FS := [(pthPath ["pydist"] (3, 9, 7), activeContents)]

/-- Witness for `patch_step_classification` on the concrete already-active
file. -/
theorem patch_step_classification_witness :
    patch_step pthDemoFs ["pydist"] (3, 9, 7) =
        .ok (fsWrite pthDemoFs (pthPath ["pydist"] (3, 9, 7)) activeContents) ∧
      fsLookup (fsWrite pthDemoFs (pthPath ["pydist"] (3, 9, 7)) activeContents)
        (pthPath ["pydist"] (3, 9, 7)) = some activeContents :=
  (patch_step_classification pthDemoFs ["pydist"] (3, 9, 7)).2
    activeContents (by decide) (by decide)

/-- Counterexample to claim C3 as stated: on a configuration file that does
not contain `#import site` the patch step succeeds silently (rewriting the
unchanged contents) instead of failing. -/
theorem patch_step_silent_success_cex :
    patch_step pthDemoFs ["pydist"] (3, 9, 7) =
        .ok (fsWrite pthDemoFs (pthPath ["pydist"] (3, 9, 7)) activeContents) ∧
      (patch_step pthDemoFs ["pydist"] (3, 9, 7)).isOk = true := by
  constructor
  · decide
  · decide

/-! ## Claim C1: the merge never overwrites -/

lemma fsLookup_write (fs : FS) (p : FPath) (c : List Char) (q : FPath) :
    fsLookup (fsWrite fs p c) q = if q = p then some c else fsLookup fs q := by
  by_cases h : q = p
  · simp [fsLookup, fsWrite, List.lookup, h]
  · have hbe : (q == p) = false := by
      by_contra hx
      rw [Bool.not_eq_false] at hx
      exact h (by simpa using hx)
    simp [fsLookup, fsWrite, List.lookup, h, hbe]

/-- Claim C1: the library merge (depth 1, skip-existing) leaves every
pre-existing destination file byte-for-byte unchanged, and the only paths
it can create are `destDir/srcName/n` for `n` an immediate *file* child of
the source directory — the selection of what to copy is exactly one level
deep, and a colliding destination entry is skipped silently (the merge
total, not failing). -/
theorem merge_preserves_existing (srcName : String) (src : List (String × HostEntry))
    (destDir : FPath) (fs : FS) :
    (∀ p c, fsLookup fs p = some c →
        fsLookup (copy_libs srcName src destDir fs) p = some c) ∧
      (∀ p, fsLookup (copy_libs srcName src destDir fs) p = fsLookup fs p ∨
        ∃ n content, (n, HostEntry.file content) ∈ src ∧ p = destDir ++ [srcName, n]) := by
  induction src generalizing fs with
  | nil => exact ⟨fun _ _ h => h, fun _ => Or.inl rfl⟩
  | cons e src' ih =>
    obtain ⟨n, entry⟩ := e
    cases entry with
    | subdir files =>
      refine ⟨fun p c h => (ih fs).1 p c h, fun p => ?_⟩
      rcases (ih fs).2 p with h | ⟨n', content, hmem, hp⟩
      · exact Or.inl h
      · exact Or.inr ⟨n', content, List.mem_cons_of_mem _ hmem, hp⟩
    | file c0 =>
      cases hlk : fsLookup fs (destDir ++ [srcName, n]) with
      | some c1 =>
        have hred : copy_libs srcName ((n, HostEntry.file c0) :: src') destDir fs =
            copy_libs srcName src' destDir fs := by
          simp [copy_libs, hlk]
        rw [hred]
        refine ⟨fun p c h => (ih fs).1 p c h, fun p => ?_⟩
        rcases (ih fs).2 p with h | ⟨n', content, hmem, hp⟩
        · exact Or.inl h
        · exact Or.inr ⟨n', content, List.mem_cons_of_mem _ hmem, hp⟩
      | none =>
        have hred : copy_libs srcName ((n, HostEntry.file c0) :: src') destDir fs =
            copy_libs srcName src' destDir
              (fsWrite fs (destDir ++ [srcName, n]) c0) := by
          simp [copy_libs, hlk]
        rw [hred]
        constructor
        · intro p c h
          apply (ih (fsWrite fs (destDir ++ [srcName, n]) c0)).1 p c
          rw [fsLookup_write]
          by_cases hpq : p = destDir ++ [srcName, n]
          · rw [hpq] at h
            rw [h] at hlk
            exact absurd hlk (by simp)
          · simpa [hpq] using h
        · intro p
          rcases (ih (fsWrite fs (destDir ++ [srcName, n]) c0)).2 p with h |
            ⟨n', content, hmem, hp⟩
          · rw [h, fsLookup_write]
            by_cases hpq : p = destDir ++ [srcName, n]
            · exact Or.inr ⟨n, c0, List.mem_cons_self _ _, hpq⟩
            · simp [hpq]
          · exact Or.inr ⟨n', content, List.mem_cons_of_mem _ hmem, hp⟩

/-- Contents found at the destination before the merge. -/
def originalContents : List Char := ['O', 'R', 'I', 'G', 'I', 'N', 'A', 'L']

/-- Contents of the colliding source file. -/
def newContents : List Char := ['N', 'E', 'W']

/-- The destination already holding `a.py` (under the merged `libs`
subdirectory, where the copy lands). -/
def mergeDemoFs : FS := [(["pydist", "libs", "a.py"], originalContents)]

/-- The host `libs` directory holding its own `a.py`. -/
def mergeDemoSrc : List (String × HostEntry) := [("a.py", HostEntry.file newContents)]

/-- Witness for `merge_preserves_existing`: the pre-existing `a.py` with
contents `ORIGINAL` still holds `ORIGINAL` after merging a source whose
`a.py` holds `NEW`. -/
theorem merge_preserves_existing_witness :
    fsLookup (copy_libs "libs" mergeDemoSrc ["pydist"] mergeDemoFs)
      ["pydist", "libs", "a.py"] = some originalContents :=
  (merge_preserves_existing "libs" mergeDemoSrc ["pydist"] mergeDemoFs).1
    ["pydist", "libs", "a.py"] originalContents (by decide)

/-! ## Claim C7: the host library locator -/

lemma find_libs_spec (target : String) (isDir : FPath → Bool) :
    ∀ dirs : List FPath,
      (∀ p, find_libs target isDir dirs = some p ↔
        ∃ pre d post, dirs = pre ++ d :: post ∧
          (d.getLast? = some target ∧ isDir (d ++ ["libs"]) = true) ∧
          (∀ x ∈ pre, ¬(x.getLast? = some target ∧ isDir (x ++ ["libs"]) = true)) ∧
          p = d ++ ["libs"]) ∧
      (find_libs target isDir dirs = none ↔
        ∀ d ∈ dirs, ¬(d.getLast? = some target ∧ isDir (d ++ ["libs"]) = true)) := by
  intro dirs
  induction dirs with
  | nil =>
    refine ⟨fun p => ⟨fun h => by simp [find_libs] at h, ?_⟩, by simp [find_libs]⟩
    rintro ⟨pre, d, post, hdirs, -⟩
    exact absurd hdirs (by simp)
  | cons d0 rest ih =>
    by_cases hq : d0.getLast? = some target ∧ isDir (d0 ++ ["libs"]) = true
    · have hred : find_libs target isDir (d0 :: rest) = some (d0 ++ ["libs"]) := by
        simp [find_libs, hq]
      refine ⟨fun p => ?_, ?_⟩
      · rw [hred]
        constructor
        · intro h
          exact ⟨[], d0, rest, rfl, hq, by simp, (Option.some.inj h).symm⟩
        · rintro ⟨pre, d, post, hdirs, hd, hpre, hp⟩
          cases pre with
          | nil =>
            simp only [List.nil_append, List.cons.injEq] at hdirs
            rw [hp, hdirs.1]
          | cons x pre' =>
            simp only [List.cons_append, List.cons.injEq] at hdirs
            exact absurd (hdirs.1 ▸ hq) (hpre x (List.mem_cons_self x pre'))
      · rw [hred]
        constructor
        · intro h; exact absurd h (by simp)
        · intro hall
          exact absurd hq (hall d0 (List.mem_cons_self d0 rest))
    · have hred : find_libs target isDir (d0 :: rest) = find_libs target isDir rest := by
        simp [find_libs, hq]
      refine ⟨fun p => ?_, ?_⟩
      · rw [hred, (ih.1 p)]
        constructor
        · rintro ⟨pre, d, post, hdirs, hd, hpre, hp⟩
          refine ⟨d0 :: pre, d, post, by rw [List.cons_append, hdirs], hd, ?_, hp⟩
          intro x hx
          rcases List.mem_cons.mp hx with hx | hx
          · exact hx ▸ hq
          · exact hpre x hx
        · rintro ⟨pre, d, post, hdirs, hd, hpre, hp⟩
          cases pre with
          | nil =>
            simp only [List.nil_append, List.cons.injEq] at hdirs
            exact absurd (hdirs.1 ▸ hd) hq
          | cons x pre' =>
            simp only [List.cons_append, List.cons.injEq] at hdirs
            exact ⟨pre', d, post, hdirs.2, hd,
              fun y hy => hpre y (List.mem_cons_of_mem x hy), hp⟩
      · rw [hred, ih.2]
        constructor
        · intro hall d hd
          rcases List.mem_cons.mp hd with hd | hd
          · exact hd ▸ hq
          · exact hall d hd
        · intro hall d hd
          exact hall d (List.mem_cons_of_mem d0 hd)

/-- Claim C7: for every version triple and every `PATH` contents, the
locator returns the `libs` subdirectory of the *first* entry, in original
order, whose final component is the version-derived name (`Python` plus the
unpadded major and minor digits: 3.9 gives `Python39`, 3.10 gives
`Python310`) and whose `libs` subdirectory is a directory; name-matching
entries without an existing `libs` directory are skipped, and when no
entry qualifies it fails with the not-found error naming the target. -/
theorem locator_first_match (v : Nat × Nat × Nat) (dirs : List FPath)
    (isDir : FPath → Bool) :
    (∀ p, host_python_dir v (some dirs) isDir = .ok p ↔
        ∃ pre d post, dirs = pre ++ d :: post ∧ okDir v isDir d ∧
          (∀ x ∈ pre, ¬okDir v isDir x) ∧ p = d ++ ["libs"]) ∧
      (host_python_dir v (some dirs) isDir = .error (.notFound (targetPyName v)) ↔
        ∀ d ∈ dirs, ¬okDir v isDir d) ∧
      targetPyName (3, 9, 7) = "Python39" ∧ targetPyName (3, 10, 0) = "Python310" := by
  obtain ⟨hsome, hnone⟩ := find_libs_spec (targetPyName v) isDir dirs
  have hred : ∀ p, (host_python_dir v (some dirs) isDir = .ok p) ↔
      (find_libs (targetPyName v) isDir dirs = some p) := by
    intro p
    unfold host_python_dir
    cases hf : find_libs (targetPyName v) isDir dirs with
    | none => simp [hf]
    | some q => simp [hf]
  have herr : (host_python_dir v (some dirs) isDir =
        .error (.notFound (targetPyName v))) ↔
      (find_libs (targetPyName v) isDir dirs = none) := by
    unfold host_python_dir
    cases hf : find_libs (targetPyName v) isDir dirs with
    | none => simp [hf]
    | some q => simp [hf]
  refine ⟨fun p => ?_, ?_, by decide, by decide⟩
  · rw [hred p, hsome p]
    exact Iff.rfl
  · rw [herr, hnone]
    exact Iff.rfl

/-- A `PATH` whose first `Python39` entry lacks a `libs` directory while
the second has one. -/
def demoPathDirs : List FPath := [["c", "Python39"], ["d", "Python39"]]

/-- The directory oracle for the demonstration: only `d/Python39/libs`
exists as a directory. -/
def demoIsDir : FPath → Bool := fun p => p == ["d", "Python39", "libs"]

/-- Witness for `locator_first_match`: the first name-matching entry
without `libs` is skipped and the second one wins. -/
theorem locator_first_match_witness :
    host_python_dir (3, 9, 7) (some demoPathDirs) demoIsDir =
      .ok (["d", "Python39"] ++ ["libs"]) :=
  ((locator_first_match (3, 9, 7) demoPathDirs demoIsDir).1 _).mpr
    ⟨[["c", "Python39"]], ["d", "Python39"], [], rfl, ⟨by decide, by decide⟩,
      by decide, rfl⟩

/-! ## Trace lemmas for the orchestrated workflow -/

lemma mem_create_trace {pl : OsPlatform} {w : World} {v : Nat × Nat × Nat}
    {dist : FPath} {e : Event} (h : e ∈ (create_embedded_env pl w v dist).1) :
    e ∈ assemblyTrace pl v dist := by
  unfold create_embedded_env at h
  repeat' split at h
  all_goals first
    | exact h
    | exact List.take_subset _ _ h
    | simp at h

lemma run_event_env {pl : OsPlatform} {w : World} {v : Nat × Nat × Nat}
    {dist : FPath} {prog : String} {env : Option String}
    (h : Event.run prog env ∈ (create_embedded_env pl w v dist).1) :
    env = some (dist_env_path pl dist) := by
  have h2 := mem_create_trace h
  simp only [assemblyTrace, List.mem_cons, List.not_mem_nil, or_false] at h2
  rcases h2 with h2 | h2 | h2 | h2 | h2 | h2 | h2
  all_goals simp at h2
  exact h2.2

lemma no_setParentEnv_create {pl : OsPlatform} {w : World} {v : Nat × Nat × Nat}
    {dist : FPath} {nm val : String}
    (h : Event.setParentEnv nm val ∈ (create_embedded_env pl w v dist).1) : False := by
  have h2 := mem_create_trace h
  simp [assemblyTrace] at h2

lemma mem_assembly {pl : OsPlatform} {opt : Opt} {w : World} {v : Nat × Nat × Nat}
    {e : Event} (h : e ∈ (assemblyStep pl opt w v).1) :
    e ∈ (create_embedded_env pl w v opt.output_dir).1 := by
  unfold assemblyStep at h
  by_cases hp : w.pipIsFile = true
  · simp [hp] at h
  · rw [if_neg (by simpa using hp)] at h
    exact h

lemma mainRun_err {pl : OsPlatform} {opt : Opt} {w : World} {er : Err}
    (hv : versionResolve opt w = .error er) :
    mainRun pl opt w = (probeTrace opt, .error er) := by
  unfold mainRun
  rw [hv]

lemma mainRun_ok {pl : OsPlatform} {opt : Opt} {w : World} {v : Nat × Nat × Nat}
    (hv : versionResolve opt w = .ok v) :
    mainRun pl opt w =
      match (assemblyStep pl opt w v).2 with
      | .error e => (probeTrace opt ++ (assemblyStep pl opt w v).1, .error e)
      | .ok _ =>
        match opt.requirements with
        | none => (probeTrace opt ++ (assemblyStep pl opt w v).1, .ok ())
        | some _ =>
          (probeTrace opt ++ (assemblyStep pl opt w v).1 ++
              (install_requirements pl w (opt.output_dir ++ ["Scripts", "pip.exe"])
                opt.output_dir).1,
            (install_requirements pl w (opt.output_dir ++ ["Scripts", "pip.exe"])
              opt.output_dir).2) := by
  unfold mainRun
  rw [hv]

lemma mem_mainRun_trace {pl : OsPlatform} {opt : Opt} {w : World} {e : Event}
    (h : e ∈ (mainRun pl opt w).1) :
    e ∈ probeTrace opt ∨
      (∃ v, e ∈ (create_embedded_env pl w v opt.output_dir).1) ∨
      e ∈ (install_requirements pl w (opt.output_dir ++ ["Scripts", "pip.exe"])
        opt.output_dir).1 := by
  cases hv : versionResolve opt w with
  | error er =>
    rw [mainRun_err hv] at h
    exact Or.inl h
  | ok v =>
    rw [mainRun_ok hv] at h
    cases ha : (assemblyStep pl opt w v).2 with
    | error er =>
      rw [ha] at h
      rcases List.mem_append.mp h with h | h
      · exact Or.inl h
      · exact Or.inr (Or.inl ⟨v, mem_assembly h⟩)
    | ok u =>
      rw [ha] at h
      cases hr : opt.requirements with
      | none =>
        rw [hr] at h
        rcases List.mem_append.mp h with h | h
        · exact Or.inl h
        · exact Or.inr (Or.inl ⟨v, mem_assembly h⟩)
      | some reqs =>
        rw [hr] at h
        rcases List.mem_append.mp h with h | h
        · rcases List.mem_append.mp h with h | h
          · exact Or.inl h
          · exact Or.inr (Or.inl ⟨v, mem_assembly h⟩)
        · exact Or.inr (Or.inr h)

/-! ## Claim C8: the environment override -/

/-- Claim C8 (amended): the override value is the rendered target directory
and its rendered `Scripts` subdirectory joined by a literal colon — it
coincides with the spec's "platform path-list separator" construction
exactly on a platform whose separator is `:` — and it is supplied only as
the `PATH` of spawned children (the version probe passes no override at
all); no step ever mutates the parent process's environment. -/
theorem env_override_child_only (pl : OsPlatform) (opt : Opt) (w : World) :
    (∀ prog env, Event.run prog env ∈ (mainRun pl opt w).1 →
        env = none ∨ env = some (dist_env_path pl opt.output_dir)) ∧
      (∀ nm val, Event.setParentEnv nm val ∉ (mainRun pl opt w).1) ∧
      (∀ d, dist_env_path pl d = dist_env_path_spec ⟨pl.dirSep, ':'⟩ d) := by
  refine ⟨?_, ?_, ?_⟩
  · intro prog env hmem
    rcases mem_mainRun_trace hmem with hp | ⟨v, hc⟩ | hi
    · left
      rcases hpv : opt.py_version with _ | s
      · simp [probeTrace, hpv] at hp
        exact hp.2
      · simp [probeTrace, hpv] at hp
    · right
      exact run_event_env hc
    · right
      simp [install_requirements] at hi
      exact hi.2
  · intro nm val hmem
    rcases mem_mainRun_trace hmem with hp | ⟨v, hc⟩ | hi
    · rcases hpv : opt.py_version with _ | s <;> simp [probeTrace, hpv] at hp
    · exact no_setParentEnv_create hc
    · simp [install_requirements] at hi
  · intro d
    rfl

/-- Counterexample to claim C8 as stated: on the Windows platform — the
platform the produced layout targets — the path-list separator is `;`, yet
the constructed value joins with a literal `:`; the two constructions
disagree at the default target directory `pydist`. -/
theorem env_override_platform_sep_cex :
    dist_env_path windowsPlatform ["pydist"] ≠
        dist_env_path_spec windowsPlatform ["pydist"] ∧
      dist_env_path windowsPlatform ["pydist"] = "pydist:pydist\\Scripts" ∧
      dist_env_path_spec windowsPlatform ["pydist"] = "pydist;pydist\\Scripts" := by
  refine ⟨?_, ?_, ?_⟩
  · decide
  · decide
  · decide

/-- Inputs of a demonstration run: explicit version 3.9.7, the default
target directory, and a requirements manifest. -/
def demoOpt : Opt :=
  ⟨some ['3', '.', '9', '.', '7'], ["pydist"], some ["reqs.txt"]⟩

/-- A world in which the marker executable already exists and every
external step would succeed. -/
def demoWorld : World where
  defaultPython := .ran true ['3', '.', '9', '.', '7']
  pipIsFile := true
  pathVar := some [["c", "Python39"]]
  isDir := fun _ => true
  createDirOk := true
  zipFetchOk := true
  extractOk := true
  copyOk := true
  pthContents := some []
  getPipFetchOk := true
  getPipRun := .ran true []
  pipRun := .ran true []

/-- Witness for `env_override_child_only` on the demonstration run. -/
theorem env_override_child_only_witness :
    Event.setParentEnv "PATH" "pydist" ∉ (mainRun unixPlatform demoOpt demoWorld).1 :=
  (env_override_child_only unixPlatform demoOpt demoWorld).2.1 "PATH" "pydist"

/-! ## Claim C9: the idempotent marker skip -/

/-- Claim C9: when the marker `Scripts/pip.exe` is already a file, the
whole assembly phase is skipped — the run performs no network request, no
archive extraction and no library merge — and it proceeds directly to the
requirements install exactly when a manifest was supplied; a missing
manifest is not an error (the run ends in success having emitted only the
version-probe events). -/
theorem marker_skip_idempotent (pl : OsPlatform) (opt : Opt) (w : World)
    (v : Nat × Nat × Nat) (hpip : w.pipIsFile = true)
    (hver : versionResolve opt w = .ok v) :
    (∀ u, Event.networkGet u ∉ (mainRun pl opt w).1) ∧
      Event.extract ∉ (mainRun pl opt w).1 ∧
      Event.copyLibs ∉ (mainRun pl opt w).1 ∧
      (opt.requirements = none → mainRun pl opt w = (probeTrace opt, .ok ())) ∧
      (∀ reqs, opt.requirements = some reqs →
        mainRun pl opt w =
          (probeTrace opt ++
              [Event.run (pathRender pl (opt.output_dir ++ ["Scripts", "pip.exe"]))
                (some (dist_env_path pl opt.output_dir))],
            (install_requirements pl w (opt.output_dir ++ ["Scripts", "pip.exe"])
              opt.output_dir).2)) := by
  have hassem : assemblyStep pl opt w v = ([], .ok ()) := by
    simp [assemblyStep, hpip]
  rcases hreq : opt.requirements with _ | reqs
  · have hmain : mainRun pl opt w = (probeTrace opt, .ok ()) := by
      rw [mainRun_ok hver, hassem]
      simp [hreq]
    refine ⟨?_, ?_, ?_, fun _ => hmain, fun reqs hr => by simp [hreq] at hr⟩
    · intro u hu
      rw [hmain] at hu
      rcases hpv : opt.py_version with _ | s <;> simp [probeTrace, hpv] at hu
    · intro hu
      rw [hmain] at hu
      rcases hpv : opt.py_version with _ | s <;> simp [probeTrace, hpv] at hu
    · intro hu
      rw [hmain] at hu
      rcases hpv : opt.py_version with _ | s <;> simp [probeTrace, hpv] at hu
  · have hmain : mainRun pl opt w =
        (probeTrace opt ++
            [Event.run (pathRender pl (opt.output_dir ++ ["Scripts", "pip.exe"]))
              (some (dist_env_path pl opt.output_dir))],
          (install_requirements pl w (opt.output_dir ++ ["Scripts", "pip.exe"])
            opt.output_dir).2) := by
      rw [mainRun_ok hver, hassem]
      simp [hreq, install_requirements]
    refine ⟨?_, ?_, ?_, fun hr => by simp [hreq] at hr, fun reqs2 hr => hmain⟩
    · intro u hu
      rw [hmain] at hu
      rcases hpv : opt.py_version with _ | s <;>
        simp [probeTrace, hpv, List.mem_append] at hu
    · intro hu
      rw [hmain] at hu
      rcases hpv : opt.py_version with _ | s <;>
        simp [probeTrace, hpv, List.mem_append] at hu
    · intro hu
      rw [hmain] at hu
      rcases hpv : opt.py_version with _ | s <;>
        simp [probeTrace, hpv, List.mem_append] at hu

/-- Witness for `marker_skip_idempotent` on the demonstration run (marker
present, manifest supplied): the trace is exactly the pip invocation and
nothing else. -/
theorem marker_skip_idempotent_witness :
    mainRun unixPlatform demoOpt demoWorld =
      (probeTrace demoOpt ++
          [Event.run (pathRender unixPlatform (["pydist"] ++ ["Scripts", "pip.exe"]))
            (some (dist_env_path unixPlatform ["pydist"]))],
        (install_requirements unixPlatform demoWorld (["pydist"] ++ ["Scripts", "pip.exe"])
          ["pydist"]).2) :=
  (marker_skip_idempotent unixPlatform demoOpt demoWorld (3, 9, 7) rfl
    (by decide)).2.2.2.2 ["reqs.txt"] rfl

end EmbedPyEnv
